import Mathlib

/-!
Verification of the category-assignment pipeline of the bookmarks-organizer
repository.  The definitions below are a shallow embedding of
`src/categorize_bookmarks.py` (the batch scheduler / merge loop) and of the
protection logic of `src/reorganize_bookmarks.py`.

Bookmarks are treated as opaque values of a type `B` with decidable
equality: the pipeline never inspects a bookmark's fields (titles appear
only in log messages), so only bookmark identity matters for the claims.
A Python `dict` mapping folder names to folder contents is embedded as an
insertion-ordered association list; the operations below reproduce `dict`
semantics (update-in-place keeps the key's position, a new key is appended
at the end).
-/

namespace Bookmarks

/-- A folder's content: optional parent name and an ordered bookmark list. -/
structure Folder (B : Type) where
  parent : Option String := none
  bookmarks : List B := []
deriving DecidableEq, Repr

/-- The fresh folder content: no parent, empty bookmark list. -/
def Folder.empty {B : Type} : Folder B := ⟨none, []⟩

/-- A Python dict from folder name to folder content, in insertion order. -/
abbrev FolderMap (B : Type) := List (String × Folder B)

/-- Membership test `k in d` on a Python dict. -/
def containsKey {B : Type} (m : FolderMap B) (k : String) : Bool :=
  m.any (fun e => e.1 == k)

/-- Lookup `d.get(k)` on a Python dict (first entry with the key). -/
def getFolder {B : Type} (m : FolderMap B) (k : String) : Option (Folder B) :=
  (m.find? (fun e => e.1 == k)).map Prod.snd

/-- Assignment `d[k] = v` on a Python dict: overwrite in place if the key
exists, append at the end otherwise. -/
def setKey {B : Type} : FolderMap B → String → Folder B → FolderMap B
  | [], k, f => [(k, f)]
  | (k', f') :: rest, k, f =>
      if k' = k then (k, f) :: rest else (k', f') :: setKey rest k f

/-- The in-place bookmark append on the folder stored under `k`.
The Python code only executes this after ensuring `k` is present (a missing
key would be a `KeyError`); on a map without the key this returns the map
unchanged, a case the merge logic below never reaches. -/
def appendBookmark {B : Type} : FolderMap B → String → B → FolderMap B
  | [], _, _ => []
  | (k', f) :: rest, k, b =>
      if k' = k then (k', { f with bookmarks := f.bookmarks ++ [b] }) :: rest
      else (k', f) :: appendBookmark rest k b

/-- Python list indexing `l[j]` with an `int` index: non-negative indices
count from the front, negative indices wrap from the back, anything out of
range is an `IndexError` (`none`). -/
def pyGet {B : Type} (l : List B) (j : Int) : Option B :=
  if 0 ≤ j then l.get? j.toNat
  else if 0 ≤ (l.length : Int) + j then l.get? ((l.length : Int) + j).toNat
  else none

/-- Errors that unwind out of the batch loop: an Oracle failure
(`ValueError` raised in `OpenAILLM.categorize_bookmarks`, or a transport
error from the API client) or an `IndexError` from `batch[int(idx)-1]`. -/
inductive Err where
  | oracleFailure (msg : String)
  | indexError
deriving DecidableEq, Repr

/-- The Categorization Oracle (`llm.categorize_bookmarks`): takes a batch,
the current `existing_categories` and the `is_first_iteration` flag, and
either returns the parsed index-to-category mapping (a dict, embedded as
the list of its entries in insertion order, with `int` keys as produced by
`{int(k): v for k, v in categorization.items()}`) or raises. -/
abbrev Oracle (B : Type) := List B → List String → Bool → Except Err (List (Int × String))

/-- Scheduler state during the batch loop: the output folder map
`categorized_bookmarks` and the vocabulary list `existing_categories`. -/
structure MState (B : Type) where
  map : FolderMap B
  existing : List String
deriving DecidableEq, Repr

variable {B : Type} [DecidableEq B]

/-- Lines 107–118 of `categorize_bookmarks.py`: resolve one returned
`(index, category)` pair's category and append the bookmark.
If the category is already a key of the folder map, append there; else if
the vocabulary is below `max_categories`, create the category (appending
it to the vocabulary); else coerce to the sentinel `"Other"`, creating it
on first use. -/
def mergeOne (maxCat : Nat) (st : MState B) (bm : B) (category : String) : MState B :=
  if containsKey st.map category then
    { st with map := appendBookmark st.map category bm }
  else if st.existing.length < maxCat then
    { map := appendBookmark (st.map ++ [(category, Folder.empty)]) category bm,
      existing := st.existing ++ [category] }
  else
    let m1 := if containsKey st.map "Other" then st.map
              else st.map ++ [("Other", Folder.empty)]
    { st with map := appendBookmark m1 "Other" bm }

/-- Lines 104–119: iterate over the Oracle's returned mapping in order;
`batch[int(idx)-1]` uses Python indexing (an out-of-range index raises). -/
def mergeBatch (maxCat : Nat) (batch : List B) :
    List (Int × String) → MState B → Except Err (MState B)
  | [], st => .ok st
  | (idx, category) :: rest, st =>
      match pyGet batch (idx - 1) with
      | none => .error .indexError
      | some bm => mergeBatch maxCat batch rest (mergeOne maxCat st bm category)

/-- Line 94: `is_first_iteration = (i == 0)` — the flag passed to the
Oracle for the batch starting at loop counter `i` (equivalently, for the
`i`-th batch when counting batches). -/
def isFirstIteration (i : Nat) : Bool := i == 0

/-- Prompt selection in `OpenAILLM.categorize_bookmarks`, line 31: the
fresh-taxonomy prompt is chosen only when
`is_first_iteration and not existing_categories`. -/
def usesFreshPrompt (isFirst : Bool) (existing : List String) : Bool :=
  isFirst && existing.isEmpty

/-- Fuel-bounded worker for `chunks`; the fuel is an upper bound on the
list length, so the fuel-exhausted case is never reached by `chunks`. -/
def chunksGo (n : Nat) : Nat → List B → List (List B)
  | _, [] => []
  | 0, a :: l => [a :: l]
  | fuel + 1, a :: l =>
      if n = 0 then [a :: l]
      else ((a :: l).take n) :: chunksGo n fuel ((a :: l).drop n)

/-- Batch slicing `bookmarks_to_categorize[i:i+batch_size]` for `i` in
`range(0, total, batch_size)`: consecutive chunks of size `n` (the last one
may be shorter).  Python's `range` raises on step 0; here `n = 0` returns
the whole list as one chunk, a case no run of the program exercises. -/
def chunks (n : Nat) (l : List B) : List (List B) :=
  chunksGo n l.length l

/-- The batch loop, lines 91–129: for each batch in order, call the Oracle
with the current vocabulary and the first-iteration flag, then merge the
returned mapping.  Any Oracle failure or index error aborts the whole
loop. -/
def processBatches (o : Oracle B) (maxCat : Nat) :
    Nat → List (List B) → MState B → Except Err (MState B)
  | _, [], st => .ok st
  | i, batch :: rest, st =>
      match o batch st.existing (isFirstIteration i) with
      | .error e => .error e
      | .ok mapping =>
          match mergeBatch maxCat batch mapping st with
          | .error e => .error e
          | .ok st' => processBatches o maxCat (i + 1) rest st'

/-- Python's `str.lower`, modeled characterwise over the string's data
(`Char.toLower` per character, which is exact for the ASCII folder-name
comparison in line 71 and, unlike `String.toLower`, reducible by `decide`). -/
def lowerString (s : String) : String := ⟨s.data.map Char.toLower⟩

/-- Line 71: the initial vocabulary — input folder names that are not in
`protected_folders` (exact membership) and whose lowercase form is not
`"uncategorized"`. -/
def initialCategories (prot : List String) (input : FolderMap B) : List String :=
  (input.map Prod.fst).filter
    (fun k => !prot.contains k && lowerString k ≠ "uncategorized")

/-- Lines 74–83, the seeded output folder map: in full-reorganization mode
only the protected folders (exact membership) are carried over; in
incremental mode every folder except the exact name `"Uncategorized"`. -/
def seedMap (organizeAll : Bool) (prot : List String) (input : FolderMap B) :
    FolderMap B :=
  if organizeAll then input.filter (fun e => prot.contains e.1)
  else input.filter (fun e => e.1 ≠ "Uncategorized")

/-- Lines 74–83, the flat to-be-categorized sequence: in full mode the
bookmarks of every non-protected folder other than `"Uncategorized"` in
input order, followed by the `"Uncategorized"` bookmarks; in incremental
mode just the `"Uncategorized"` bookmarks. -/
def toCategorize (organizeAll : Bool) (prot : List String) (input : FolderMap B) :
    List B :=
  let uncat := ((getFolder input "Uncategorized").map Folder.bookmarks).getD []
  if organizeAll then
    ((input.filter (fun e => !prot.contains e.1 && e.1 ≠ "Uncategorized")).flatMap
      (fun e => e.2.bookmarks)) ++ uncat
  else uncat

/-- The scheduler state at the start of the batch loop. -/
def initState (organizeAll : Bool) (prot : List String) (input : FolderMap B) :
    MState B :=
  { map := seedMap organizeAll prot input,
    existing := initialCategories prot input }

/-- Lines 131–138: after the loop, reset `"Uncategorized"` to an empty
folder and compute the saved category list (`existing_categories` minus
`"Other"` and protected names). -/
def finalize (prot : List String) (st : MState B) : FolderMap B × List String :=
  (setKey st.map "Uncategorized" Folder.empty,
   st.existing.filter (fun c => c ≠ "Other" && !prot.contains c))

/-- The whole `categorize_bookmarks` run (after config and input loading):
seed, batch, merge, finalize.  On success the pair is what gets written to
`categorized_bookmarks.json` and `categories.json`; on error nothing is
written (persistence happens only after the loop). -/
def categorizeRun (maxCat : Nat) (prot : List String) (batchSize : Nat)
    (organizeAll : Bool) (o : Oracle B) (input : FolderMap B) :
    Except Err (FolderMap B × List String) :=
  (processBatches o maxCat 0 (chunks batchSize (toCategorize organizeAll prot input))
      (initState organizeAll prot input)).map (finalize prot)

/-- Python's `str.startswith`, modeled characterwise over the strings' data
(equivalent to `String.startsWith`, and reducible by `decide`). -/
def strStartsWith (s p : String) : Bool := p.data.isPrefixOf s.data

/-- Function `is_protected_folder` from `reorganize_bookmarks.py`, lines
47–49: prefix-based protection (`folder.startswith(protected)`). -/
def is_protected_folder (folder : String) (protectedFolders : List String) : Bool :=
  protectedFolders.any (fun p => strStartsWith folder p)

/-- Function `flatten_bookmarks` (lines 51–65), on bookmark identity: the
Python code copies each bookmark dict and fills in missing `title`/`url`
fields; with bookmarks as opaque values this is the concatenation of the
folders' bookmark lists in order. -/
def flatten_bookmarks (m : FolderMap B) : List B :=
  m.flatMap (fun e => e.2.bookmarks)

/-- Function `reorganize_all_bookmarks` (lines 67–85): keep prefix-protected
folders intact, flatten everything else into `"Uncategorized"`. -/
def reorganize_all_bookmarks (input : FolderMap B) (protectedFolders : List String) :
    FolderMap B :=
  let kept := input.filter (fun e => is_protected_folder e.1 protectedFolders)
  let uncat := (input.filter
      (fun e => !is_protected_folder e.1 protectedFolders)).flatMap
      (fun e => e.2.bookmarks)
  setKey kept "Uncategorized" { parent := none, bookmarks := uncat }

/-- Total number of occurrences of a bookmark across all folders of a map. -/
def countB (m : FolderMap B) (b : B) : Nat :=
  (m.map (fun e => e.2.bookmarks.count b)).sum

/-- Number of distinct folder names of `m` that satisfy `p`. -/
def distinctKeys (m : FolderMap B) (p : String → Bool) : Nat :=
  ((m.map Prod.fst).filter p).toFinset.card

/-- The folder map of a successful run (used to state concrete runs). -/
def okMap : Except Err (FolderMap B × List String) → FolderMap B
  | .ok (m, _) => m
  | .error _ => []

/-- The contractual index list of a batch of length `L`: the integers
`1, ..., L`. -/
def idxList (L : Nat) : List Int :=
  (List.range L).map (fun (j : Nat) => (j : Int) + 1)

theorem containsKey_eq_contains (m : FolderMap B) (k : String) :
    containsKey m k = (m.map Prod.fst).contains k := by
  induction m with
  | nil => rfl
  | cons e rest ih =>
      simp only [containsKey, List.any_cons, List.map_cons, List.contains_cons] at *
      rw [ih, Bool.or_comm]
      simp only [BEq.comm]
      exact Bool.or_comm _ _

theorem containsKey_isSome_getFolder (m : FolderMap B) (k : String) :
    containsKey m k = (getFolder m k).isSome := by
  induction m with
  | nil => rfl
  | cons e rest ih =>
      by_cases h : e.1 = k
      · simp [containsKey, getFolder, List.find?_cons, h]
      · simp only [containsKey, getFolder, List.any_cons, List.find?_cons] at *
        have hb : (e.1 == k) = false := beq_false_of_ne h
        simp [hb, ih, containsKey, getFolder]

theorem getFolder_cons (e : String × Folder B) (rest : FolderMap B) (k : String) :
    getFolder (e :: rest) k = if e.1 = k then some e.2 else getFolder rest k := by
  by_cases h : e.1 = k
  · simp [getFolder, List.find?_cons, h]
  · have hb : (e.1 == k) = false := beq_false_of_ne h
    simp [getFolder, List.find?_cons, hb, h]

theorem keys_appendBookmark (m : FolderMap B) (k : String) (b : B) :
    (appendBookmark m k b).map Prod.fst = m.map Prod.fst := by
  induction m with
  | nil => rfl
  | cons e rest ih =>
      by_cases h : e.1 = k
      · simp [appendBookmark, h]
      · simp [appendBookmark, h, ih]

theorem containsKey_appendBookmark (m : FolderMap B) (k k' : String) (b : B) :
    containsKey (appendBookmark m k b) k' = containsKey m k' := by
  rw [containsKey_eq_contains, containsKey_eq_contains, keys_appendBookmark]

theorem getFolder_appendBookmark_ne (m : FolderMap B) (k k' : String) (b : B)
    (h : k' ≠ k) : getFolder (appendBookmark m k b) k' = getFolder m k' := by
  induction m with
  | nil => rfl
  | cons e rest ih =>
      by_cases he : e.1 = k
      · subst he
        rw [appendBookmark, if_pos rfl, getFolder_cons, getFolder_cons]
        simp [Ne.symm h]
      · rw [appendBookmark, if_neg he, getFolder_cons, getFolder_cons, ih]

theorem getFolder_appendBookmark_eq (m : FolderMap B) (k : String) (b : B)
    (f : Folder B) (h : getFolder m k = some f) :
    getFolder (appendBookmark m k b) k
      = some { f with bookmarks := f.bookmarks ++ [b] } := by
  induction m with
  | nil => simp [getFolder] at h
  | cons e rest ih =>
      by_cases he : e.1 = k
      · rw [getFolder_cons, if_pos he] at h
        cases h
        rw [appendBookmark, if_pos he, getFolder_cons, if_pos he]
      · rw [getFolder_cons, if_neg he] at h
        rw [appendBookmark, if_neg he, getFolder_cons, if_neg he, ih h]

theorem getFolder_append_left (m m' : FolderMap B) (k : String)
    (h : containsKey m k = true) :
    getFolder (m ++ m') k = getFolder m k := by
  induction m with
  | nil => simp [containsKey] at h
  | cons e rest ih =>
      by_cases he : e.1 = k
      · simp [getFolder_cons, he]
      · have hb : (e.1 == k) = false := beq_false_of_ne he
        simp only [containsKey, List.any_cons, hb, Bool.false_or] at h
        simp [getFolder_cons, he, ih h]

theorem getFolder_append_single_ne (m : FolderMap B) (c k : String)
    (f : Folder B) (h : k ≠ c) :
    getFolder (m ++ [(c, f)]) k = getFolder m k := by
  induction m with
  | nil => simp [getFolder_cons, Ne.symm h, getFolder]
  | cons e rest ih =>
      by_cases he : e.1 = k
      · simp [getFolder_cons, he]
      · simp [getFolder_cons, he, ih]

theorem countB_append (m m' : FolderMap B) (b : B) :
    countB (m ++ m') b = countB m b + countB m' b := by
  simp [countB]

theorem countB_appendBookmark (m : FolderMap B) (k : String) (b x : B)
    (h : containsKey m k = true) :
    countB (appendBookmark m k b) x
      = countB m x + (if x = b then 1 else 0) := by
  induction m with
  | nil => simp [containsKey] at h
  | cons e rest ih =>
      by_cases he : e.1 = k
      · rw [appendBookmark, if_pos he]
        simp only [countB, List.map_cons, List.sum_cons]
        rw [List.count_append]
        by_cases hx : x = b
        · simp [hx, List.count_singleton]
          omega
        · have : List.count x [b] = 0 := by
            simp [List.count_singleton, hx]
          simp [hx, this]
      · have hb : (e.1 == k) = false := beq_false_of_ne he
        simp only [containsKey, List.any_cons, hb, Bool.false_or] at h
        rw [appendBookmark, if_neg he]
        simp only [countB, List.map_cons, List.sum_cons] at *
        rw [ih h]
        omega

theorem setKey_of_not_contains (m : FolderMap B) (k : String) (f : Folder B)
    (h : containsKey m k = false) : setKey m k f = m ++ [(k, f)] := by
  induction m with
  | nil => rfl
  | cons e rest ih =>
      simp only [containsKey, List.any_cons, Bool.or_eq_false_iff] at h
      have he : e.1 ≠ k := by
        intro hk
        rw [hk] at h
        simp at h
      rw [setKey, if_neg he, ih]
      · rfl
      · exact h.2

theorem getFolder_setKey_ne (m : FolderMap B) (k k' : String) (f : Folder B)
    (h : k' ≠ k) : getFolder (setKey m k f) k' = getFolder m k' := by
  induction m with
  | nil => simp [setKey, getFolder_cons, Ne.symm h, getFolder]
  | cons e rest ih =>
      by_cases he : e.1 = k
      · rw [setKey, if_pos he, getFolder_cons, getFolder_cons]
        simp [he, Ne.symm h]
      · rw [setKey, if_neg he, getFolder_cons, getFolder_cons, ih]

theorem keys_setKey (m : FolderMap B) (k : String) (f : Folder B) :
    (setKey m k f).map Prod.fst = m.map Prod.fst
    ∨ (setKey m k f).map Prod.fst = m.map Prod.fst ++ [k] := by
  induction m with
  | nil => right; rfl
  | cons e rest ih =>
      by_cases he : e.1 = k
      · left
        rw [setKey, if_pos he]
        simp [he]
      · rw [setKey, if_neg he]
        rcases ih with ih | ih
        · left; simp [ih]
        · right; simp [ih]

theorem distinctKeys_filter_keys_eq (m m' : FolderMap B) (p : String → Bool)
    (h : (m.map Prod.fst).filter p = (m'.map Prod.fst).filter p) :
    distinctKeys m p = distinctKeys m' p := by
  unfold distinctKeys
  rw [h]

theorem distinctKeys_append_single_le (m : FolderMap B) (c : String)
    (f : Folder B) (p : String → Bool) :
    distinctKeys (m ++ [(c, f)]) p ≤ distinctKeys m p + 1 := by
  unfold distinctKeys
  rw [List.map_append, List.filter_append]
  by_cases hc : p c
  · simp only [List.map_cons, List.map_nil, List.filter_cons, hc, List.filter_nil]
    rw [List.toFinset_append]
    calc (((m.map Prod.fst).filter p).toFinset ∪ [c].toFinset).card
        ≤ ((m.map Prod.fst).filter p).toFinset.card + [c].toFinset.card :=
          Finset.card_union_le _ _
      _ ≤ ((m.map Prod.fst).filter p).toFinset.card + 1 := by
          simp
  · simp only [List.map_cons, List.map_nil, List.filter_cons,
      Bool.not_eq_true] at *
    rw [hc]
    simp

theorem distinctKeys_append_single_not (m : FolderMap B) (c : String)
    (f : Folder B) (p : String → Bool) (hc : p c = false) :
    distinctKeys (m ++ [(c, f)]) p = distinctKeys m p := by
  unfold distinctKeys
  rw [List.map_append, List.filter_append]
  simp [List.filter_cons, hc]

theorem distinctKeys_appendBookmark (m : FolderMap B) (k : String) (b : B)
    (p : String → Bool) :
    distinctKeys (appendBookmark m k b) p = distinctKeys m p := by
  unfold distinctKeys
  rw [keys_appendBookmark]

theorem distinctKeys_setKey_not (m : FolderMap B) (k : String) (f : Folder B)
    (p : String → Bool) (hk : p k = false) :
    distinctKeys (setKey m k f) p = distinctKeys m p := by
  unfold distinctKeys
  rcases keys_setKey m k f with h | h <;> rw [h]
  rw [List.filter_append]
  simp [List.filter_cons, hk]

theorem distinctKeys_eq_zero (m : FolderMap B) (p : String → Bool)
    (h : ∀ k ∈ m.map Prod.fst, p k = false) : distinctKeys m p = 0 := by
  unfold distinctKeys
  have : (m.map Prod.fst).filter p = [] := by
    apply List.filter_eq_nil.mpr
    intro a ha
    simp [h a ha]
  rw [this]
  simp

theorem pyGet_in_range (l : List B) (i : Int) (h1 : 1 ≤ i)
    (h2 : i ≤ (l.length : Int)) :
    pyGet l (i - 1) = l.get? (i - 1).toNat ∧ (pyGet l (i - 1)).isSome := by
  have h0 : 0 ≤ i - 1 := by omega
  constructor
  · rw [pyGet, if_pos h0]
  · rw [pyGet, if_pos h0]
    rw [List.get?_eq_getElem?, List.getElem?_eq_getElem (by omega)]
    rfl

theorem pyGet_neg_one (l : List B) (h : l ≠ []) :
    pyGet l (-1) = some (l.getLast h) := by
  have hl : 1 ≤ l.length := List.length_pos.mpr h
  have h0 : ¬ (0 : Int) ≤ -1 := by omega
  have h1 : (0 : Int) ≤ (l.length : Int) + (-1) := by omega
  rw [pyGet, if_neg h0, if_pos h1]
  have ht : ((l.length : Int) + (-1)).toNat = l.length - 1 := by omega
  rw [ht, List.getLast_eq_get]
  rw [List.get?_eq_getElem?, List.getElem?_eq_getElem (by omega)]
  congr 1

theorem containsKey_append_single_self (m : FolderMap B) (c : String)
    (f : Folder B) : containsKey (m ++ [(c, f)]) c = true := by
  simp [containsKey]

theorem mergeOne_countB (maxCat : Nat) (st : MState B) (bm : B) (c : String)
    (x : B) :
    countB (mergeOne maxCat st bm c).map x
      = countB st.map x + (if x = bm then 1 else 0) := by
  unfold mergeOne
  by_cases h1 : containsKey st.map c
  · rw [if_pos h1]
    exact countB_appendBookmark st.map c bm x h1
  · rw [if_neg h1]
    by_cases h2 : st.existing.length < maxCat
    · rw [if_pos h2]
      have hc : containsKey (st.map ++ [(c, Folder.empty)]) c = true :=
        containsKey_append_single_self st.map c Folder.empty
      simp only
      rw [countB_appendBookmark _ c bm x hc, countB_append]
      simp [countB, Folder.empty]
    · rw [if_neg h2]
      by_cases h3 : containsKey st.map "Other"
      · simp only [h3, if_pos]
        rw [countB_appendBookmark _ "Other" bm x h3]
      · simp only [h3, Bool.false_eq_true, if_false]
        have hc : containsKey (st.map ++ [("Other", Folder.empty)]) "Other" = true :=
          containsKey_append_single_self st.map "Other" Folder.empty
        rw [countB_appendBookmark _ "Other" bm x hc, countB_append]
        simp [countB, Folder.empty]

theorem mergeOne_getFolder_ne (maxCat : Nat) (st : MState B) (bm : B)
    (c k : String) (hck : c ≠ k) (hother : k ≠ "Other") :
    getFolder (mergeOne maxCat st bm c).map k = getFolder st.map k := by
  unfold mergeOne
  by_cases h1 : containsKey st.map c
  · rw [if_pos h1]
    exact getFolder_appendBookmark_ne st.map c k bm (Ne.symm hck)
  · rw [if_neg h1]
    by_cases h2 : st.existing.length < maxCat
    · rw [if_pos h2]
      simp only
      rw [getFolder_appendBookmark_ne _ c k bm (Ne.symm hck)]
      exact getFolder_append_single_ne st.map c k Folder.empty (Ne.symm hck)
    · rw [if_neg h2]
      by_cases h3 : containsKey st.map "Other"
      · simp only [h3, if_pos]
        exact getFolder_appendBookmark_ne st.map "Other" k bm hother
      · simp only [h3, Bool.false_eq_true, if_false]
        rw [getFolder_appendBookmark_ne _ "Other" k bm hother]
        exact getFolder_append_single_ne st.map "Other" k Folder.empty hother

theorem mergeOne_existing_cases (maxCat : Nat) (st : MState B) (bm : B)
    (c : String) :
    (mergeOne maxCat st bm c).existing = st.existing
    ∨ ((mergeOne maxCat st bm c).existing = st.existing ++ [c]
        ∧ st.existing.length < maxCat ∧ containsKey st.map c = false) := by
  unfold mergeOne
  by_cases h1 : containsKey st.map c
  · rw [if_pos h1]; left; rfl
  · rw [if_neg h1]
    by_cases h2 : st.existing.length < maxCat
    · rw [if_pos h2]
      right
      exact ⟨rfl, h2, by simpa using h1⟩
    · rw [if_neg h2]; left; rfl

theorem mergeOne_known (maxCat : Nat) (st : MState B) (bm : B) (c : String)
    (f : Folder B) (h : getFolder st.map c = some f) :
    mergeOne maxCat st bm c = { st with map := appendBookmark st.map c bm } := by
  have hc : containsKey st.map c = true := by
    rw [containsKey_isSome_getFolder, h]
    rfl
  unfold mergeOne
  rw [if_pos hc]

theorem mergeOne_potential (maxCat : Nat) (st : MState B) (bm : B)
    (c : String) (p : String → Bool) (hp : p "Other" = false) :
    distinctKeys (mergeOne maxCat st bm c).map p
        + (maxCat - (mergeOne maxCat st bm c).existing.length)
      ≤ distinctKeys st.map p + (maxCat - st.existing.length) := by
  unfold mergeOne
  by_cases h1 : containsKey st.map c
  · rw [if_pos h1]
    simp [distinctKeys_appendBookmark]
  · rw [if_neg h1]
    by_cases h2 : st.existing.length < maxCat
    · rw [if_pos h2]
      simp only [distinctKeys_appendBookmark, List.length_append,
        List.length_singleton]
      have hd := distinctKeys_append_single_le st.map c Folder.empty p
      omega
    · rw [if_neg h2]
      by_cases h3 : containsKey st.map "Other"
      · simp only [h3, if_pos, distinctKeys_appendBookmark]
        omega
      · simp only [h3, Bool.false_eq_true, if_false, distinctKeys_appendBookmark]
        rw [distinctKeys_append_single_not st.map "Other" Folder.empty p hp]

theorem mergeOne_existing_length_le (maxCat : Nat) (st : MState B) (bm : B)
    (c : String) :
    st.existing.length ≤ (mergeOne maxCat st bm c).existing.length := by
  rcases mergeOne_existing_cases maxCat st bm c with h | ⟨h, _, _⟩ <;> simp [h]

theorem chunksGo_fuel_irrel (n : Nat) (hn : n ≠ 0) :
    ∀ (fuel₁ fuel₂ : Nat) (l : List B), l.length ≤ fuel₁ → l.length ≤ fuel₂ →
      chunksGo n fuel₁ l = chunksGo n fuel₂ l := by
  intro fuel₁
  induction fuel₁ with
  | zero =>
      intro fuel₂ l h1 h2
      have : l = [] := List.length_eq_zero.mp (Nat.le_zero.mp h1)
      subst this
      cases fuel₂ <;> rfl
  | succ f ih =>
      intro fuel₂ l h1 h2
      cases l with
      | nil => cases fuel₂ <;> rfl
      | cons a l' =>
          cases fuel₂ with
          | zero => simp at h2
          | succ g =>
              rw [chunksGo, chunksGo, if_neg hn, if_neg hn]
              congr 1
              apply ih
              · simp only [List.length_drop, List.length_cons] at *
                omega
              · simp only [List.length_drop, List.length_cons] at *
                omega

theorem chunks_cons (n : Nat) (hn : n ≠ 0) (a : B) (l : List B) :
    chunks n (a :: l) = ((a :: l).take n) :: chunks n ((a :: l).drop n) := by
  unfold chunks
  rw [List.length_cons, chunksGo, if_neg hn]
  congr 1
  apply chunksGo_fuel_irrel n hn
  · simp only [List.length_drop, List.length_cons]
    omega
  · exact Nat.le_refl _

theorem chunks_join (n : Nat) (hn : n ≠ 0) :
    ∀ l : List B, (chunks n l).join = l := by
  have H : ∀ (len : Nat) (l : List B), l.length ≤ len → (chunks n l).join = l := by
    intro len
    induction len with
    | zero =>
        intro l h
        have : l = [] := List.length_eq_zero.mp (Nat.le_zero.mp h)
        subst this
        rfl
    | succ k ih =>
        intro l h
        cases l with
        | nil => rfl
        | cons a l' =>
            rw [chunks_cons n hn a l']
            have h2 := ih ((a :: l').drop n) (by
              simp only [List.length_drop, List.length_cons] at *
              omega)
            calc (((a :: l').take n) :: chunks n ((a :: l').drop n)).join
                = (a :: l').take n ++ (chunks n ((a :: l').drop n)).join := rfl
              _ = (a :: l').take n ++ (a :: l').drop n := by rw [h2]
              _ = a :: l' := List.take_append_drop _ _
  intro l
  exact H l.length l (Nat.le_refl _)

theorem mergeBatch_ok (maxCat : Nat) (batch : List B) :
    ∀ (mapping : List (Int × String)) (st : MState B),
      (∀ pr ∈ mapping, (pyGet batch (pr.1 - 1)).isSome) →
      ∃ st', mergeBatch maxCat batch mapping st = .ok st' := by
  intro mapping
  induction mapping with
  | nil => intro st _; exact ⟨st, rfl⟩
  | cons pr rest ih =>
      intro st h
      have hpr : (pyGet batch (pr.1 - 1)).isSome :=
        h pr (List.mem_cons_self pr rest)
      rcases Option.isSome_iff_exists.mp hpr with ⟨bm, hbm⟩
      rcases ih (mergeOne maxCat st bm pr.2)
          (fun q hq => h q (List.mem_cons_of_mem pr hq)) with ⟨st', hst'⟩
      refine ⟨st', ?_⟩
      rw [show (pr :: rest : List (Int × String)) = (pr.1, pr.2) :: rest by rfl]
      rw [mergeBatch, hbm]
      exact hst'

theorem mergeBatch_countB (maxCat : Nat) (batch : List B) :
    ∀ (mapping : List (Int × String)) (st st' : MState B),
      mergeBatch maxCat batch mapping st = .ok st' →
      ∀ x, countB st'.map x
        = countB st.map x
          + (mapping.filterMap (fun pr => pyGet batch (pr.1 - 1))).count x := by
  intro mapping
  induction mapping with
  | nil =>
      intro st st' h x
      cases h
      simp
  | cons pr rest ih =>
      intro st st' h x
      rw [show (pr :: rest : List (Int × String)) = (pr.1, pr.2) :: rest by rfl]
        at h
      rw [mergeBatch] at h
      cases hbm : pyGet batch (pr.1 - 1) with
      | none => rw [hbm] at h; cases h
      | some bm =>
          rw [hbm] at h
          have := ih (mergeOne maxCat st bm pr.2) st' h x
          rw [this, mergeOne_countB]
          rw [List.filterMap_cons]
          simp only [hbm, List.count_cons]
          by_cases hx : x = bm
          · simp [hx]
            omega
          · have : (bm == x) = false := beq_false_of_ne (Ne.symm hx)
            simp [hx, this]

theorem mergeBatch_getFolder_ne (maxCat : Nat) (batch : List B) (k : String)
    (hother : k ≠ "Other") :
    ∀ (mapping : List (Int × String)) (st st' : MState B),
      (∀ pr ∈ mapping, pr.2 ≠ k) →
      mergeBatch maxCat batch mapping st = .ok st' →
      getFolder st'.map k = getFolder st.map k := by
  intro mapping
  induction mapping with
  | nil => intro st st' _ h; cases h; rfl
  | cons pr rest ih =>
      intro st st' hk h
      rw [show (pr :: rest : List (Int × String)) = (pr.1, pr.2) :: rest by rfl]
        at h
      rw [mergeBatch] at h
      cases hbm : pyGet batch (pr.1 - 1) with
      | none => rw [hbm] at h; cases h
      | some bm =>
          rw [hbm] at h
          rw [ih (mergeOne maxCat st bm pr.2) st'
            (fun q hq => hk q (List.mem_cons_of_mem pr hq)) h]
          exact mergeOne_getFolder_ne maxCat st bm pr.2 k
            (hk pr (List.mem_cons_self pr rest)) hother

theorem mergeBatch_potential (maxCat : Nat) (batch : List B)
    (p : String → Bool) (hp : p "Other" = false) :
    ∀ (mapping : List (Int × String)) (st st' : MState B),
      mergeBatch maxCat batch mapping st = .ok st' →
      distinctKeys st'.map p + (maxCat - st'.existing.length)
        ≤ distinctKeys st.map p + (maxCat - st.existing.length) := by
  intro mapping
  induction mapping with
  | nil => intro st st' h; cases h; exact Nat.le_refl _
  | cons pr rest ih =>
      intro st st' h
      rw [show (pr :: rest : List (Int × String)) = (pr.1, pr.2) :: rest by rfl]
        at h
      rw [mergeBatch] at h
      cases hbm : pyGet batch (pr.1 - 1) with
      | none => rw [hbm] at h; cases h
      | some bm =>
          rw [hbm] at h
          exact Nat.le_trans (ih (mergeOne maxCat st bm pr.2) st' h)
            (mergeOne_potential maxCat st bm pr.2 p hp)

theorem mergeBatch_existing_length_le (maxCat : Nat) (batch : List B) :
    ∀ (mapping : List (Int × String)) (st st' : MState B),
      mergeBatch maxCat batch mapping st = .ok st' →
      st.existing.length ≤ st'.existing.length := by
  intro mapping
  induction mapping with
  | nil => intro st st' h; cases h; exact Nat.le_refl _
  | cons pr rest ih =>
      intro st st' h
      rw [show (pr :: rest : List (Int × String)) = (pr.1, pr.2) :: rest by rfl]
        at h
      rw [mergeBatch] at h
      cases hbm : pyGet batch (pr.1 - 1) with
      | none => rw [hbm] at h; cases h
      | some bm =>
          rw [hbm] at h
          exact Nat.le_trans (mergeOne_existing_length_le maxCat st bm pr.2)
            (ih (mergeOne maxCat st bm pr.2) st' h)

theorem processBatches_ok (o : Oracle B) (maxCat : Nat)
    (ho : ∀ (b : List B) (v : List String) (fl : Bool), ∃ mp,
      o b v fl = .ok mp ∧ ∀ pr ∈ mp, 1 ≤ pr.1 ∧ pr.1 ≤ (b.length : Int)) :
    ∀ (bs : List (List B)) (i : Nat) (st : MState B),
      ∃ st', processBatches o maxCat i bs st = .ok st' := by
  intro bs
  induction bs with
  | nil => intro i st; exact ⟨st, rfl⟩
  | cons b rest ih =>
      intro i st
      rcases ho b st.existing (isFirstIteration i) with ⟨mp, hmp, hrange⟩
      have hsome : ∀ pr ∈ mp, (pyGet b (pr.1 - 1)).isSome := by
        intro pr hpr
        exact (pyGet_in_range b pr.1 (hrange pr hpr).1 (hrange pr hpr).2).2
      rcases mergeBatch_ok maxCat b mp st hsome with ⟨st1, hst1⟩
      rcases ih (i + 1) st1 with ⟨st', hst'⟩
      refine ⟨st', ?_⟩
      rw [processBatches]
      simp only [hmp, hst1]
      exact hst'

theorem processBatches_getFolder_ne (o : Oracle B) (maxCat : Nat) (k : String)
    (hother : k ≠ "Other")
    (ho : ∀ (b : List B) (v : List String) (fl : Bool) (mp : List (Int × String)),
      o b v fl = .ok mp → ∀ pr ∈ mp, pr.2 ≠ k) :
    ∀ (bs : List (List B)) (i : Nat) (st st' : MState B),
      processBatches o maxCat i bs st = .ok st' →
      getFolder st'.map k = getFolder st.map k := by
  intro bs
  induction bs with
  | nil => intro i st st' h; cases h; rfl
  | cons b rest ih =>
      intro i st st' h
      rw [processBatches] at h
      cases hmp : o b st.existing (isFirstIteration i) with
      | error e => simp only [hmp] at h; cases h
      | ok mp =>
          simp only [hmp] at h
          cases hmb : mergeBatch maxCat b mp st with
          | error e => simp only [hmb] at h; cases h
          | ok st1 =>
              simp only [hmb] at h
              rw [ih (i + 1) st1 st' h]
              exact mergeBatch_getFolder_ne maxCat b k hother mp st st1
                (ho b st.existing (isFirstIteration i) mp hmp) hmb

theorem processBatches_potential (o : Oracle B) (maxCat : Nat)
    (p : String → Bool) (hp : p "Other" = false) :
    ∀ (bs : List (List B)) (i : Nat) (st st' : MState B),
      processBatches o maxCat i bs st = .ok st' →
      distinctKeys st'.map p + (maxCat - st'.existing.length)
        ≤ distinctKeys st.map p + (maxCat - st.existing.length) := by
  intro bs
  induction bs with
  | nil => intro i st st' h; cases h; exact Nat.le_refl _
  | cons b rest ih =>
      intro i st st' h
      rw [processBatches] at h
      cases hmp : o b st.existing (isFirstIteration i) with
      | error e => simp only [hmp] at h; cases h
      | ok mp =>
          simp only [hmp] at h
          cases hmb : mergeBatch maxCat b mp st with
          | error e => simp only [hmb] at h; cases h
          | ok st1 =>
              simp only [hmb] at h
              exact Nat.le_trans (ih (i + 1) st1 st' h)
                (mergeBatch_potential maxCat b p hp mp st st1 hmb)

theorem filterMap_pyGet_idxList (l : List B) :
    (idxList l.length).filterMap (fun i => pyGet l (i - 1)) = l := by
  induction l using List.reverseRecOn with
  | nil => rfl
  | append_singleton l a ih =>
      rw [List.length_append, List.length_singleton, idxList, List.range_succ,
        List.map_append, List.filterMap_append]
      have htail : (List.filterMap (fun i => pyGet (l ++ [a]) (i - 1))
          (List.map (fun (j : Nat) => (j : Int) + 1) [l.length])) = [a] := by
        simp only [List.map_cons, List.map_nil, List.filterMap_cons,
          List.filterMap_nil]
        have h1 : ((l.length : Int) + 1) - 1 = (l.length : Int) := by ring
        have h2 : pyGet (l ++ [a]) (l.length : Int) = some a := by
          rw [pyGet, if_pos (by omega)]
          have h3 : ((l.length : Int)).toNat = l.length := by omega
          rw [h3, List.get?_eq_getElem?]
          have h4 : l.length < (l ++ [a]).length := by simp
          rw [List.getElem?_eq_getElem h4]
          congr 1
          rw [List.getElem_append_right (Nat.le_refl _)]
          simp
        rw [h1, h2]
      have hhead : List.filterMap (fun i => pyGet (l ++ [a]) (i - 1))
          (List.map (fun (j : Nat) => (j : Int) + 1) (List.range l.length))
          = List.filterMap (fun i => pyGet l (i - 1))
            (List.map (fun (j : Nat) => (j : Int) + 1) (List.range l.length)) := by
        apply List.filterMap_congr
        intro i hi
        rcases List.mem_map.mp hi with ⟨j, hj, rfl⟩
        have hj' : j < l.length := List.mem_range.mp hj
        have h1 : ((j : Int) + 1) - 1 = (j : Int) := by ring
        rw [h1, pyGet, if_pos (by omega), pyGet, if_pos (by omega)]
        have h3 : ((j : Int)).toNat = j := by omega
        rw [h3, List.get?_eq_getElem?, List.get?_eq_getElem?]
        rw [List.getElem?_append_left hj']
      rw [htail, hhead]
      rw [show List.map (fun (j : Nat) => (j : Int) + 1) (List.range l.length)
          = idxList l.length from rfl, ih]

theorem mapping_filterMap_perm (l : List B) (mapping : List (Int × String))
    (hperm : (mapping.map Prod.fst).Perm (idxList l.length)) :
    (mapping.filterMap (fun pr => pyGet l (pr.1 - 1))).Perm l := by
  have h1 : mapping.filterMap (fun pr => pyGet l (pr.1 - 1))
      = (mapping.map Prod.fst).filterMap (fun i => pyGet l (i - 1)) := by
    rw [List.filterMap_map]
    rfl
  rw [h1]
  have h2 := List.Perm.filterMap (fun i => pyGet l (i - 1)) hperm
  rw [filterMap_pyGet_idxList] at h2
  exact h2

theorem processBatches_countB (o : Oracle B) (maxCat : Nat)
    (ho : ∀ (b : List B) (v : List String) (fl : Bool) (mp : List (Int × String)),
      o b v fl = .ok mp → (mp.map Prod.fst).Perm (idxList b.length)) :
    ∀ (bs : List (List B)) (i : Nat) (st st' : MState B),
      processBatches o maxCat i bs st = .ok st' →
      ∀ x, countB st'.map x = countB st.map x + bs.join.count x := by
  intro bs
  induction bs with
  | nil => intro i st st' h x; cases h; simp
  | cons b rest ih =>
      intro i st st' h x
      rw [processBatches] at h
      cases hmp : o b st.existing (isFirstIteration i) with
      | error e => simp only [hmp] at h; cases h
      | ok mp =>
          simp only [hmp] at h
          cases hmb : mergeBatch maxCat b mp st with
          | error e => simp only [hmb] at h; cases h
          | ok st1 =>
              simp only [hmb] at h
              have hperm := ho b st.existing (isFirstIteration i) mp hmp
              have hcount := mergeBatch_countB maxCat b mp st st1 hmb x
              have hsel : (mp.filterMap (fun pr => pyGet b (pr.1 - 1))).count x
                  = b.count x :=
                (mapping_filterMap_perm b mp hperm).count_eq x
              rw [ih (i + 1) st1 st' h x, hcount, hsel]
              have : (b :: rest).join = b ++ rest.join := rfl
              rw [this, List.count_append]
              omega

theorem categorizeRun_ok_iff (maxCat : Nat) (prot : List String)
    (bsz : Nat) (all : Bool) (o : Oracle B) (input : FolderMap B)
    (out : FolderMap B × List String) :
    categorizeRun maxCat prot bsz all o input = .ok out ↔
      ∃ st', processBatches o maxCat 0
          (chunks bsz (toCategorize all prot input)) (initState all prot input)
          = .ok st' ∧ finalize prot st' = out := by
  unfold categorizeRun
  cases h : processBatches o maxCat 0
      (chunks bsz (toCategorize all prot input)) (initState all prot input) with
  | error e =>
      simp only [Except.map]
      constructor
      · intro hc; cases hc
      · rintro ⟨st', hst', -⟩
        cases hst'
  | ok st' =>
      simp only [Except.map]
      constructor
      · intro hc
        cases hc
        exact ⟨st', rfl, rfl⟩
      · rintro ⟨st'', hst'', hfin⟩
        cases hst''
        rw [hfin]

theorem keys_filter_subset (input : FolderMap B) (q : String × Folder B → Bool) :
    ∀ k ∈ (input.filter q).map Prod.fst, k ∈ input.map Prod.fst := by
  intro k hk
  rcases List.mem_map.mp hk with ⟨e, he, rfl⟩
  exact List.mem_map.mpr ⟨e, List.mem_of_mem_filter he, rfl⟩

theorem keys_seedMap_subset (all : Bool) (prot : List String)
    (input : FolderMap B) :
    ∀ k ∈ (seedMap all prot input).map Prod.fst, k ∈ input.map Prod.fst := by
  unfold seedMap
  cases all with
  | true =>
      rw [if_pos rfl]
      exact keys_filter_subset input _
  | false =>
      rw [if_neg (by simp)]
      exact keys_filter_subset input _

theorem getFolder_filter_keyPred (input : FolderMap B) (q : String → Bool)
    (k : String) (hq : q k = true) :
    getFolder (input.filter (fun e => q e.1)) k = getFolder input k := by
  induction input with
  | nil => rfl
  | cons e rest ih =>
      by_cases he : e.1 = k
      · subst he
        rw [List.filter_cons, if_pos (by simpa using hq), getFolder_cons,
          getFolder_cons]
        simp
      · rw [List.filter_cons]
        by_cases hqe : q e.1
        · rw [if_pos (by simpa using hqe), getFolder_cons, getFolder_cons,
            if_neg he, if_neg he, ih]
        · rw [if_neg (by simpa using hqe), getFolder_cons, if_neg he, ih]

theorem getFolder_seedMap (all : Bool) (prot : List String)
    (input : FolderMap B) (k : String)
    (hfull : all = true → prot.contains k = true)
    (hinc : all = false → k ≠ "Uncategorized") :
    getFolder (seedMap all prot input) k = getFolder input k := by
  unfold seedMap
  cases all with
  | true =>
      rw [if_pos rfl]
      exact getFolder_filter_keyPred input (fun s => prot.contains s) k (hfull rfl)
  | false =>
      rw [if_neg (by simp)]
      have : getFolder (input.filter (fun e => decide (e.1 ≠ "Uncategorized"))) k
          = getFolder input k := by
        apply getFolder_filter_keyPred input (fun s => decide (s ≠ "Uncategorized"))
        simpa using hinc rfl
      simpa using this

theorem containsKey_seedMap_uncategorized (all : Bool) (prot : List String)
    (input : FolderMap B) (hprot : prot.contains "Uncategorized" = false) :
    containsKey (seedMap all prot input) "Uncategorized" = false := by
  rw [containsKey_eq_contains]
  cases hc : ((seedMap all prot input).map Prod.fst).contains "Uncategorized" with
  | false => rfl
  | true =>
      exfalso
      have hmem := List.mem_of_elem_eq_true hc
      unfold seedMap at hmem
      cases all with
      | true =>
          rw [if_pos rfl] at hmem
          rcases List.mem_map.mp hmem with ⟨e, he, hfst⟩
          have := List.of_mem_filter he
          rw [hfst] at this
          rw [hprot] at this
          cases this
      | false =>
          rw [if_neg (by simp)] at hmem
          rcases List.mem_map.mp hmem with ⟨e, he, hfst⟩
          have := List.of_mem_filter he
          rw [hfst] at this
          simp at this

/-- C7 (amended): the `is_first_iteration` flag passed to the Oracle is true
exactly for the first batch (loop counter 0), regardless of the vocabulary;
the fresh-taxonomy behaviour the spec describes is the Oracle-side prompt
selection, which requires both the flag and an empty `existing_categories`. -/
theorem c7_first_batch_flag :
    isFirstIteration 0 = true
  ∧ (∀ i : Nat, i ≠ 0 → isFirstIteration i = false)
  ∧ (∀ (fl : Bool) (existing : List String),
      usesFreshPrompt fl existing = true ↔ fl = true ∧ existing = []) := by
  refine ⟨rfl, ?_, ?_⟩
  · intro i hi
    simp [isFirstIteration, hi]
  · intro fl existing
    cases fl <;> simp [usesFreshPrompt, List.isEmpty_iff]

/-- Witness for C7 (amended): the flag is false at batch counter 5, and a
true flag with a non-empty vocabulary does not select the fresh prompt. -/
theorem c7_first_batch_flag_witness :
    isFirstIteration 5 = false
  ∧ (usesFreshPrompt true ["A"] = true ↔ true = true ∧ ["A"] = ([] : List String)) :=
  ⟨c7_first_batch_flag.2.1 5 (by decide), c7_first_batch_flag.2.2 true ["A"]⟩

/-- Counterexample for C7 as stated: with a non-empty initial vocabulary
(`["A"]`), the very first batch is still called with the flag set to true —
the flag-revealing oracle records a true flag, so the run files bookmark 9
under "FlagTrue", not "FlagFalse" as the claim predicts. -/
theorem c7_counterexample :
    initialCategories ([] : List String)
        ([("A", ⟨none, []⟩), ("Uncategorized", ⟨none, [9]⟩)] : FolderMap Nat)
      = ["A"]
  ∧ getFolder (okMap (categorizeRun 5 [] 10 false
      (fun _ _ fl => .ok [(1, if fl then "FlagTrue" else "FlagFalse")])
      [("A", ⟨none, []⟩), ("Uncategorized", ⟨none, [9]⟩)])) "FlagTrue"
      = some ⟨none, [9]⟩ := by
  constructor
  · decide
  · decide

/-- C8: any Oracle failure unwinds out of the batch loop (first conjunct:
from any reached loop state, an erroring call makes the whole remaining loop
return that error) and out of the run (second conjunct), so `categorizeRun`
yields `Except.error` and no output folder map or category list exists to be
written — persistence happens only on the `Except.ok` path of `finalize`. -/
theorem c8_oracle_failure_aborts (o : Oracle B) (maxCat : Nat)
    (prot : List String) (bsz : Nat) (all : Bool) (input : FolderMap B) :
    (∀ (i : Nat) (b : List B) (rest : List (List B)) (st : MState B) (e : Err),
        o b st.existing (isFirstIteration i) = .error e →
        processBatches o maxCat i (b :: rest) st = .error e)
  ∧ ∀ e : Err,
      processBatches o maxCat 0 (chunks bsz (toCategorize all prot input))
        (initState all prot input) = .error e →
      categorizeRun maxCat prot bsz all o input = .error e := by
  constructor
  · intro i b rest st e he
    rw [processBatches, he]
  · intro e he
    unfold categorizeRun
    rw [he]
    rfl

/-- Witness for C8: a concrete run whose oracle raises on the first batch
produces exactly that error and no output. -/
theorem c8_oracle_failure_aborts_witness :
    categorizeRun 5 [] 10 false
      (fun _ _ _ => .error (.oracleFailure "API"))
      ([("Uncategorized", ⟨none, [3]⟩)] : FolderMap Nat)
      = .error (.oracleFailure "API") := by
  have h := c8_oracle_failure_aborts (B := Nat)
    (fun _ _ _ => .error (.oracleFailure "API")) 5 [] 10 false
    [("Uncategorized", ⟨none, [3]⟩)]
  exact h.2 (.oracleFailure "API")
    (h.1 0 [3] [] (initState false [] [("Uncategorized", ⟨none, [3]⟩)])
      (.oracleFailure "API") rfl)

/-- C9: a returned mapping key `0` on a non-empty batch does not raise:
`batch[int(idx)-1]` becomes `batch[-1]`, which Python-wraps to the last
bookmark of the batch, and that bookmark is then merged under the returned
category (it is appended exactly once to the folder map). -/
theorem c9_zero_index_wraps (maxCat : Nat) (batch : List B) (c : String)
    (st : MState B) (h : batch ≠ []) :
    mergeBatch maxCat batch [((0 : Int), c)] st
      = .ok (mergeOne maxCat st (batch.getLast h) c)
  ∧ ∀ x, countB (mergeOne maxCat st (batch.getLast h) c).map x
      = countB st.map x + (if x = batch.getLast h then 1 else 0) := by
  constructor
  · have h1 : ((0 : Int) - 1) = -1 := by norm_num
    rw [mergeBatch, h1, pyGet_neg_one batch h]
    rfl
  · intro x
    exact mergeOne_countB maxCat st (batch.getLast h) c x

/-- Witness for C9: on the batch `[3, 4]` with mapping key 0, bookmark 4
(the last) is merged, with no error. -/
theorem c9_zero_index_wraps_witness :
    mergeBatch 5 [3, 4] [((0 : Int), "A")] (⟨[], []⟩ : MState Nat)
      = .ok (mergeOne 5 ⟨[], []⟩ ([3, 4].getLast (by decide)) "A")
  ∧ countB (mergeOne 5 (⟨[], []⟩ : MState Nat)
      ([3, 4].getLast (by decide)) "A").map 4
      = countB (⟨[], []⟩ : MState Nat).map 4 + 1 := by
  have h := c9_zero_index_wraps 5 [3, 4] "A" (⟨[], []⟩ : MState Nat) (by decide)
  refine ⟨h.1, ?_⟩
  have h4 := h.2 4
  simpa using h4

/-- C10: in full-reorganization mode the vocabulary is seeded from the input
folder names while the folder map is seeded with protected folders only, so
when the Oracle returns a name already in the initial vocabulary while the
cap is not yet reached, `existing_categories` gets that name appended a
second time: the list stops being duplicate-free, its length grows although
the set of distinct names does not, and the extra slot counts against the
cap. -/
theorem c10_duplicate_vocabulary (maxCat : Nat) (prot : List String)
    (input : FolderMap B) (bm : B) (c : String)
    (h1 : c ∈ initialCategories prot input)
    (h2 : (initialCategories prot input).length < maxCat) :
    (mergeOne maxCat (initState true prot input) bm c).existing
        = initialCategories prot input ++ [c]
  ∧ ¬ (mergeOne maxCat (initState true prot input) bm c).existing.Nodup
  ∧ (mergeOne maxCat (initState true prot input) bm c).existing.length
        = (initialCategories prot input).length + 1
  ∧ (mergeOne maxCat (initState true prot input) bm c).existing.toFinset
        = (initialCategories prot input).toFinset := by
  have hcp : prot.contains c = false := by
    have hf := List.of_mem_filter h1
    cases hc : prot.contains c with
    | false => rfl
    | true =>
        rw [hc] at hf
        simp at hf
  have hseed : containsKey (seedMap true prot input) c = false := by
    rw [containsKey_eq_contains]
    cases hc : ((seedMap true prot input).map Prod.fst).contains c with
    | false => rfl
    | true =>
        exfalso
        have hmem := List.mem_of_elem_eq_true hc
        unfold seedMap at hmem
        rw [if_pos rfl] at hmem
        rcases List.mem_map.mp hmem with ⟨e, he, hfst⟩
        have hq := List.of_mem_filter he
        rw [hfst, hcp] at hq
        cases hq
  have hstep : (mergeOne maxCat (initState true prot input) bm c).existing
      = initialCategories prot input ++ [c] := by
    unfold mergeOne
    rw [show (initState true prot input).map = seedMap true prot input from rfl]
    rw [hseed]
    simp only [Bool.false_eq_true, if_false]
    rw [show (initState true prot input).existing
        = initialCategories prot input from rfl]
    rw [if_pos h2]
  refine ⟨hstep, ?_, ?_, ?_⟩
  · rw [hstep]
    intro hnd
    rcases List.nodup_append.mp hnd with ⟨-, -, hdisj⟩
    exact hdisj h1 (List.mem_singleton_self c)
  · rw [hstep, List.length_append, List.length_singleton]
  · rw [hstep, List.toFinset_append]
    have : ({c} : Finset String) ⊆ (initialCategories prot input).toFinset :=
      Finset.singleton_subset_iff.mpr (List.mem_toFinset.mpr h1)
    simp only [List.toFinset_cons, List.toFinset_nil, insert_emptyc_eq]
    exact Finset.union_eq_left.mpr this

/-- Witness for C10: input folder "A" (non-protected) puts "A" in the
initial vocabulary; an oracle result naming "A" in full mode duplicates it. -/
theorem c10_duplicate_vocabulary_witness :
    (mergeOne 3 (initState true []
        ([("A", ⟨none, []⟩), ("Uncategorized", ⟨none, [5]⟩)] : FolderMap Nat))
        5 "A").existing
      = initialCategories [] ([("A", ⟨none, []⟩), ("Uncategorized", ⟨none, [5]⟩)]
          : FolderMap Nat) ++ ["A"]
  ∧ ¬ (mergeOne 3 (initState true []
        ([("A", ⟨none, []⟩), ("Uncategorized", ⟨none, [5]⟩)] : FolderMap Nat))
        5 "A").existing.Nodup := by
  have h := c10_duplicate_vocabulary (B := Nat) 3 []
    [("A", ⟨none, []⟩), ("Uncategorized", ⟨none, [5]⟩)] 5 "A"
    (by decide) (by decide)
  exact ⟨h.1, h.2.1⟩

/-- C1 (amended): cap invariant on newly created categories — in every
successful run, the number of distinct output folder names that are not
input folder names and are neither the sentinel "Other" nor "Uncategorized"
never exceeds `max_categories` (each such folder comes from a creation step,
which requires `len(existing_categories) < max_categories` and appends to
the vocabulary). -/
theorem c1_cap_on_new_categories (maxCat : Nat) (prot : List String)
    (bsz : Nat) (all : Bool) (o : Oracle B) (input : FolderMap B)
    (m : FolderMap B) (cats : List String)
    (hrun : categorizeRun maxCat prot bsz all o input = .ok (m, cats)) :
    distinctKeys m (fun k => !((input.map Prod.fst).contains k)
        && !(k == "Other") && !(k == "Uncategorized")) ≤ maxCat := by
  rcases (categorizeRun_ok_iff maxCat prot bsz all o input (m, cats)).mp hrun
    with ⟨st', hst', hfin⟩
  have hp : (fun k => !((input.map Prod.fst).contains k)
      && !(k == "Other") && !(k == "Uncategorized")) "Other" = false := by
    simp
  have hpu : (fun k => !((input.map Prod.fst).contains k)
      && !(k == "Other") && !(k == "Uncategorized")) "Uncategorized" = false := by
    simp
  have hm : setKey st'.map "Uncategorized" Folder.empty = m :=
    congrArg Prod.fst hfin
  have h1 : distinctKeys m (fun k => !((input.map Prod.fst).contains k)
      && !(k == "Other") && !(k == "Uncategorized"))
      = distinctKeys st'.map (fun k => !((input.map Prod.fst).contains k)
      && !(k == "Other") && !(k == "Uncategorized")) := by
    rw [← hm]
    exact distinctKeys_setKey_not st'.map "Uncategorized" Folder.empty _ hpu
  have h2 := processBatches_potential o maxCat
    (fun k => !((input.map Prod.fst).contains k)
      && !(k == "Other") && !(k == "Uncategorized")) hp _ 0 _ _ hst'
  have h3 : distinctKeys (initState all prot input).map
      (fun k => !((input.map Prod.fst).contains k)
      && !(k == "Other") && !(k == "Uncategorized")) = 0 := by
    apply distinctKeys_eq_zero
    intro k hk
    have hmem : k ∈ input.map Prod.fst := keys_seedMap_subset all prot input k hk
    have hcont : (input.map Prod.fst).contains k = true := by
      exact List.elem_eq_true_of_mem hmem
    show (!((input.map Prod.fst).contains k)
        && !(k == "Other") && !(k == "Uncategorized")) = false
    rw [hcont]
    rfl
  rw [h1]
  omega

/-- Witness for C1 (amended): a concrete two-bookmark overflow run stays
within the (new-category) bound. -/
theorem c1_cap_on_new_categories_witness :
    distinctKeys
      ([("A", ⟨none, [0]⟩), ("Other", ⟨none, [1]⟩),
        ("Uncategorized", ⟨none, []⟩)] : FolderMap Nat)
      (fun k => !(((([("Uncategorized", ⟨none, [0, 1]⟩)] : FolderMap Nat)).map
          Prod.fst).contains k)
        && !(k == "Other") && !(k == "Uncategorized")) ≤ 1 :=
  c1_cap_on_new_categories 1 [] 10 true
    (fun _ _ _ => .ok [(1, "A"), (2, "B")])
    [("Uncategorized", ⟨none, [0, 1]⟩)]
    [("A", ⟨none, [0]⟩), ("Other", ⟨none, [1]⟩), ("Uncategorized", ⟨none, []⟩)]
    ["A"] (by rfl)

/-- Counterexample for C1 as stated: with `max_categories = 1`, no protected
folders and an empty initial vocabulary, the oracle result assigning "A" and
"B" produces two distinct non-protected, non-"Uncategorized" output folders
("A" and the overflow sentinel "Other"), exceeding the cap of 1. -/
theorem c1_counterexample :
    1 < distinctKeys
      (okMap (categorizeRun 1 [] 10 true
        (fun _ _ _ => .ok [(1, "A"), (2, "B")])
        ([("Uncategorized", ⟨none, [0, 1]⟩)] : FolderMap Nat)))
      (fun k => !(([] : List String).contains k) && !(k == "Uncategorized")) := by
  decide

/-- C2 (amended): known-name stability holds for names that are keys of the
output folder map `categorized_bookmarks` (the membership test at line 107):
such a candidate keeps its name, the bookmark is appended to exactly that
folder, every other folder is untouched and the vocabulary is unchanged.
(The claim as stated — membership in `existing_categories` — fails, because
in full-reorganization mode vocabulary names need not be folder-map keys.) -/
theorem c2_known_folder_stable (maxCat : Nat) (st : MState B) (bm : B)
    (c : String) (f : Folder B) (h : getFolder st.map c = some f) :
    (mergeOne maxCat st bm c).existing = st.existing
  ∧ getFolder (mergeOne maxCat st bm c).map c
      = some { f with bookmarks := f.bookmarks ++ [bm] }
  ∧ ∀ k, k ≠ c → getFolder (mergeOne maxCat st bm c).map k = getFolder st.map k := by
  have hm := mergeOne_known maxCat st bm c f h
  rw [hm]
  exact ⟨rfl, getFolder_appendBookmark_eq st.map c bm f h,
    fun k hk => getFolder_appendBookmark_ne st.map c k bm hk⟩

/-- Witness for C2 (amended): a known folder "Tech" keeps the bookmark even
though the cap (1) is already reached. -/
theorem c2_known_folder_stable_witness :
    (mergeOne 1 (⟨[("Tech", ⟨none, [1]⟩)], ["Tech"]⟩ : MState Nat) 2 "Tech").existing
      = ["Tech"]
  ∧ getFolder (mergeOne 1 (⟨[("Tech", ⟨none, [1]⟩)], ["Tech"]⟩ : MState Nat)
      2 "Tech").map "Tech" = some ⟨none, [1, 2]⟩ := by
  have h := c2_known_folder_stable 1
    (⟨[("Tech", ⟨none, [1]⟩)], ["Tech"]⟩ : MState Nat) 2 "Tech" ⟨none, [1]⟩
    (by decide)
  exact ⟨h.1, h.2.1⟩

/-- Counterexample for C2 as stated: in full-reorganization mode with
`max_categories = 1`, the vocabulary starts as `["A"]` (from the input
folder "A") but the folder map starts empty, so the oracle's candidate "A" —
already in `existing_categories` — is coerced to "Other": bookmark 5 lands
in "Other" and no "A" folder exists in the output. -/
theorem c2_counterexample :
    "A" ∈ initialCategories ([] : List String)
      ([("A", ⟨none, []⟩), ("Uncategorized", ⟨none, [5]⟩)] : FolderMap Nat)
  ∧ categorizeRun 1 [] 10 true (fun _ _ _ => .ok [(1, "A")])
      ([("A", ⟨none, []⟩), ("Uncategorized", ⟨none, [5]⟩)] : FolderMap Nat)
      = .ok ([("Other", ⟨none, [5]⟩), ("Uncategorized", ⟨none, []⟩)], ["A"])
  ∧ getFolder (okMap (categorizeRun 1 [] 10 true (fun _ _ _ => .ok [(1, "A")])
      ([("A", ⟨none, []⟩), ("Uncategorized", ⟨none, [5]⟩)] : FolderMap Nat))) "A"
      = none := by
  refine ⟨by decide, by rfl, by decide⟩

/-- C3 (amended): a protected folder (exact name in `Protected Folders`,
distinct from "Uncategorized" and "Other") is carried through a successful
run verbatim provided the Oracle never returns a category equal to its
name.  (The unconditional claim fails: when the Oracle assigns a bookmark a
category equal to a protected folder name, the bookmark is merged into the
protected folder — the folder map is keyed by name, so no distinct same-name
category can exist.) -/
theorem c3_protected_preserved (maxCat : Nat) (prot : List String)
    (bsz : Nat) (all : Bool) (o : Oracle B) (input : FolderMap B)
    (name : String) (m : FolderMap B) (cats : List String)
    (hprot : prot.contains name = true)
    (hU : name ≠ "Uncategorized") (hO : name ≠ "Other")
    (ho : ∀ b v fl mp, o b v fl = .ok mp → ∀ pr ∈ mp, pr.2 ≠ name)
    (hrun : categorizeRun maxCat prot bsz all o input = .ok (m, cats)) :
    getFolder m name = getFolder input name := by
  rcases (categorizeRun_ok_iff maxCat prot bsz all o input (m, cats)).mp hrun
    with ⟨st', hst', hfin⟩
  have hm : setKey st'.map "Uncategorized" Folder.empty = m :=
    congrArg Prod.fst hfin
  rw [← hm, getFolder_setKey_ne st'.map "Uncategorized" name Folder.empty hU]
  rw [processBatches_getFolder_ne o maxCat name hO ho _ 0 _ _ hst']
  exact getFolder_seedMap all prot input name (fun _ => hprot) (fun _ => hU)

/-- Witness for C3 (amended): protected folder "P" survives a run whose
oracle only ever answers "X". -/
theorem c3_protected_preserved_witness :
    getFolder ([("P", ⟨none, [0]⟩), ("X", ⟨none, [1]⟩),
        ("Uncategorized", ⟨none, []⟩)] : FolderMap Nat) "P"
      = getFolder ([("P", ⟨none, [0]⟩), ("Uncategorized", ⟨none, [1]⟩)]
          : FolderMap Nat) "P" := by
  have h := c3_protected_preserved 5 ["P"] 10 true
    (fun _ _ _ => .ok [(1, "X")])
    ([("P", ⟨none, [0]⟩), ("Uncategorized", ⟨none, [1]⟩)] : FolderMap Nat)
    "P"
    [("P", ⟨none, [0]⟩), ("X", ⟨none, [1]⟩), ("Uncategorized", ⟨none, []⟩)]
    ["X"]
    (by decide) (by decide) (by decide)
    (by
      intro b v fl mp hmp pr hpr
      cases hmp
      rcases List.mem_singleton.mp hpr with rfl
      decide)
    (by rfl)
  exact h

/-- Counterexample for C3 as stated: protected folder "P" holds bookmark 0;
the Oracle assigns bookmark 1 the category "P", and the output's protected
folder is `[0, 1]` — not set-equal to its input state `[0]`, and no distinct
unprotected same-name category is created. -/
theorem c3_counterexample :
    categorizeRun 5 ["P"] 10 true (fun _ _ _ => .ok [(1, "P")])
      ([("P", ⟨none, [0]⟩), ("Uncategorized", ⟨none, [1]⟩)] : FolderMap Nat)
      = .ok ([("P", ⟨none, [0, 1]⟩), ("Uncategorized", ⟨none, []⟩)], [])
  ∧ getFolder ([("P", ⟨none, [0]⟩), ("Uncategorized", ⟨none, [1]⟩)]
        : FolderMap Nat) "P" = some ⟨none, [0]⟩
  ∧ getFolder (okMap (categorizeRun 5 ["P"] 10 true
      (fun _ _ _ => .ok [(1, "P")])
      ([("P", ⟨none, [0]⟩), ("Uncategorized", ⟨none, [1]⟩)] : FolderMap Nat))) "P"
      = some ⟨none, [0, 1]⟩ := by
  refine ⟨by rfl, by decide, by decide⟩

/-- C4 (amended): prefix-based protection is the reorganization stage's
notion — `reorganize_all_bookmarks` carries every folder whose name merely
starts with a protected prefix through unchanged; the categorization stage
protects by exact membership only, so its full-reorganization seeding keeps
a folder exactly when its name is literally in `Protected Folders`.  (The
claim as stated fails: a folder that strictly extends a prefix survives
reorganization but is flattened by full-mode categorization.) -/
theorem c4_prefix_protection_split (input : FolderMap B) (prot : List String)
    (name : String) (hpref : is_protected_folder name prot = true)
    (hU : name ≠ "Uncategorized") :
    getFolder (reorganize_all_bookmarks input prot) name = getFolder input name
  ∧ (prot.contains name = true →
      getFolder (seedMap true prot input) name = getFolder input name) := by
  constructor
  · unfold reorganize_all_bookmarks
    rw [getFolder_setKey_ne _ "Uncategorized" name _ hU]
    exact getFolder_filter_keyPred input
      (fun s => is_protected_folder s prot) name hpref
  · intro hmem
    exact getFolder_seedMap true prot input name (fun _ => hmem)
      (fun hab => absurd hab (by decide))

/-- Witness for C4 (amended): "Barn" (prefix-protected under prefix "Bar")
is preserved by reorganization; exactly-protected "Bar" is preserved by the
full-mode categorization seeding. -/
theorem c4_prefix_protection_split_witness :
    getFolder (reorganize_all_bookmarks
        ([("Barn", ⟨none, [7]⟩)] : FolderMap Nat) ["Bar"]) "Barn"
      = getFolder ([("Barn", ⟨none, [7]⟩)] : FolderMap Nat) "Barn"
  ∧ getFolder (seedMap true ["Bar"]
        ([("Bar", ⟨none, [8]⟩)] : FolderMap Nat)) "Bar"
      = getFolder ([("Bar", ⟨none, [8]⟩)] : FolderMap Nat) "Bar" :=
  ⟨(c4_prefix_protection_split ([("Barn", ⟨none, [7]⟩)] : FolderMap Nat)
      ["Bar"] "Barn" (by decide) (by decide)).1,
   (c4_prefix_protection_split ([("Bar", ⟨none, [8]⟩)] : FolderMap Nat)
      ["Bar"] "Bar" (by decide) (by decide)).2 (by decide)⟩

/-- Counterexample for C4 as stated: "Barn" starts with the protected prefix
"Bar" and is kept intact by reorganization, but the full-reorganization
categorization pass flattens it — its bookmark is reassigned to the oracle's
category "X" and no "Barn" folder remains in the output. -/
theorem c4_counterexample :
    is_protected_folder "Barn" ["Bar"] = true
  ∧ getFolder (reorganize_all_bookmarks
      ([("Barn", ⟨none, [7]⟩)] : FolderMap Nat) ["Bar"]) "Barn"
      = some ⟨none, [7]⟩
  ∧ getFolder (okMap (categorizeRun 5 ["Bar"] 10 true
      (fun _ _ _ => .ok [(1, "X")])
      (reorganize_all_bookmarks ([("Barn", ⟨none, [7]⟩)] : FolderMap Nat)
        ["Bar"]))) "Barn" = none
  ∧ getFolder (okMap (categorizeRun 5 ["Bar"] 10 true
      (fun _ _ _ => .ok [(1, "X")])
      (reorganize_all_bookmarks ([("Barn", ⟨none, [7]⟩)] : FolderMap Nat)
        ["Bar"]))) "X" = some ⟨none, [7]⟩ := by
  refine ⟨by decide, by decide, by decide, by decide⟩

/-- C5 (amended): a result mapping that omits indices is silently tolerated:
whenever every Oracle call returns a mapping whose keys all lie in the
contractual range `[1, len(batch)]` — even if some (or all) indices of the
range are missing — the run completes without raising; the omitted
bookmarks are simply dropped.  (The claim as stated fails: no check raises
on a missing index; the merge loop only iterates over the keys present.) -/
theorem c5_missing_index_tolerated (maxCat : Nat) (prot : List String)
    (bsz : Nat) (all : Bool) (o : Oracle B) (input : FolderMap B)
    (ho : ∀ b v fl, ∃ mp, o b v fl = .ok mp
        ∧ ∀ pr ∈ mp, 1 ≤ pr.1 ∧ pr.1 ≤ (b.length : Int)) :
    ∃ out, categorizeRun maxCat prot bsz all o input = .ok out := by
  rcases processBatches_ok o maxCat ho
      (chunks bsz (toCategorize all prot input)) 0 (initState all prot input)
    with ⟨st', hst'⟩
  refine ⟨finalize prot st', ?_⟩
  unfold categorizeRun
  rw [hst']
  rfl

/-- Witness for C5 (amended): the always-empty-mapping oracle (every index
of every batch missing) still yields a successful run. -/
theorem c5_missing_index_tolerated_witness :
    ∃ out, categorizeRun 5 [] 10 false (fun _ _ _ => .ok [])
      ([("Uncategorized", ⟨none, [3]⟩)] : FolderMap Nat) = .ok out :=
  c5_missing_index_tolerated 5 [] 10 false (fun _ _ _ => .ok [])
    [("Uncategorized", ⟨none, [3]⟩)]
    (fun b v fl => ⟨[], rfl, by intro pr hpr; cases hpr⟩)

/-- Counterexample for C5 as stated: a batch of length 1 whose mapping omits
index 1 entirely does not raise — the run succeeds, the results are saved,
and bookmark 3 appears nowhere in the output. -/
theorem c5_counterexample :
    categorizeRun 5 [] 10 false (fun _ _ _ => .ok [])
      ([("Uncategorized", ⟨none, [3]⟩)] : FolderMap Nat)
      = .ok ([("Uncategorized", ⟨none, []⟩)], [])
  ∧ countB (okMap (categorizeRun 5 [] 10 false (fun _ _ _ => .ok [])
      ([("Uncategorized", ⟨none, [3]⟩)] : FolderMap Nat))) 3 = 0 := by
  refine ⟨by rfl, by decide⟩

/-- C6 (amended): coverage holds for protocol-conforming Oracle results —
if every Oracle call returns a mapping whose keys are exactly the indices
`1..len(batch)` (each exactly once, in any order) and never returns the
category "Uncategorized" (which the final reset at line 131 would empty),
and "Uncategorized" is not a protected name, then in a successful run the
bookmark multiset of the output equals the seeded folders plus the
to-be-categorized sequence: in particular a batch bookmark that is distinct
from all others appears in exactly one output folder.  (The unconditional
claim fails: an omitted index drops its bookmark and an out-of-range index
such as 0 duplicates one.) -/
theorem c6_coverage (maxCat : Nat) (prot : List String) (bsz : Nat)
    (all : Bool) (o : Oracle B) (input : FolderMap B)
    (m : FolderMap B) (cats : List String)
    (hbsz : bsz ≠ 0)
    (hprotU : prot.contains "Uncategorized" = false)
    (ho : ∀ b v fl mp, o b v fl = .ok mp →
        (mp.map Prod.fst).Perm (idxList b.length)
        ∧ ∀ pr ∈ mp, pr.2 ≠ "Uncategorized")
    (hrun : categorizeRun maxCat prot bsz all o input = .ok (m, cats)) :
    (∀ x, countB m x = countB (seedMap all prot input) x
        + (toCategorize all prot input).count x)
  ∧ ∀ x, (toCategorize all prot input).count x = 1 →
      countB (seedMap all prot input) x = 0 → countB m x = 1 := by
  rcases (categorizeRun_ok_iff maxCat prot bsz all o input (m, cats)).mp hrun
    with ⟨st', hst', hfin⟩
  have hm : setKey st'.map "Uncategorized" Folder.empty = m :=
    congrArg Prod.fst hfin
  have hmain : ∀ x, countB m x = countB (seedMap all prot input) x
      + (toCategorize all prot input).count x := by
    intro x
    have hcount := processBatches_countB o maxCat
      (fun b v fl mp h => (ho b v fl mp h).1) _ 0 _ _ hst' x
    rw [chunks_join bsz hbsz] at hcount
    have hU : containsKey st'.map "Uncategorized" = false := by
      have h1 := processBatches_getFolder_ne o maxCat "Uncategorized"
        (by decide) (fun b v fl mp h => (ho b v fl mp h).2) _ 0 _ _ hst'
      rw [containsKey_isSome_getFolder, h1, ← containsKey_isSome_getFolder]
      exact containsKey_seedMap_uncategorized all prot input hprotU
    have hset := setKey_of_not_contains st'.map "Uncategorized" Folder.empty hU
    rw [← hm, hset, countB_append]
    have hzero : countB ([("Uncategorized", Folder.empty)] : FolderMap B) x = 0 := by
      simp [countB, Folder.empty]
    rw [hzero, hcount]
    rfl
  refine ⟨hmain, ?_⟩
  intro x h1 h2
  rw [hmain x, h1, h2]

/-- Witness for C6 (amended): with the index-complete "Tech" oracle, both
bookmarks of the single batch appear exactly once in the output. -/
theorem c6_coverage_witness :
    countB ([("Tech", ⟨none, [3, 4]⟩), ("Uncategorized", ⟨none, []⟩)]
        : FolderMap Nat) 3
      = countB (seedMap false []
          ([("Uncategorized", ⟨none, [3, 4]⟩)] : FolderMap Nat)) 3
        + (toCategorize false []
            ([("Uncategorized", ⟨none, [3, 4]⟩)] : FolderMap Nat)).count 3
  ∧ countB ([("Tech", ⟨none, [3, 4]⟩), ("Uncategorized", ⟨none, []⟩)]
        : FolderMap Nat) 4 = 1 := by
  have h := c6_coverage 5 [] 10 false
    (fun b _ _ => .ok ((List.range b.length).map
      (fun (j : Nat) => ((j : Int) + 1, "Tech"))))
    ([("Uncategorized", ⟨none, [3, 4]⟩)] : FolderMap Nat)
    [("Tech", ⟨none, [3, 4]⟩), ("Uncategorized", ⟨none, []⟩)] ["Tech"]
    (by decide) (by decide)
    (by
      intro b v fl mp hmp
      cases hmp
      constructor
      · rw [List.map_map]
        have : (Prod.fst ∘ fun (j : Nat) => (((j : Int) + 1, "Tech") : Int × String))
            = fun (j : Nat) => (j : Int) + 1 := rfl
        rw [this]
        exact List.Perm.refl _
      · intro pr hpr
        rcases List.mem_map.mp hpr with ⟨j, hj, rfl⟩
        simp)
    (by rfl)
  exact ⟨h.1 3, h.2 4 (by decide) (by decide)⟩

/-- Counterexample for C6 as stated: on the single-bookmark batch `[3]` the
Oracle mapping with keys 0 and 1 makes both keys resolve to bookmark 3
(key 0 Python-wraps to the last element), so bookmark 3 is appended twice:
it appears twice in folder "A", not in exactly one folder once. -/
theorem c6_counterexample :
    categorizeRun 5 [] 10 false (fun _ _ _ => .ok [(0, "A"), (1, "A")])
      ([("Uncategorized", ⟨none, [3]⟩)] : FolderMap Nat)
      = .ok ([("A", ⟨none, [3, 3]⟩), ("Uncategorized", ⟨none, []⟩)], ["A"])
  ∧ countB (okMap (categorizeRun 5 [] 10 false
      (fun _ _ _ => .ok [(0, "A"), (1, "A")])
      ([("Uncategorized", ⟨none, [3]⟩)] : FolderMap Nat))) 3 = 2 := by
  refine ⟨by rfl, by decide⟩

end Bookmarks
